import Mathlib

/-!
Verification development for the AudioAge repository.

Part 1 embeds the browser UI component (src/voice-biomarker.tsx): its React
state, the analyzeAudio / handleFileUpload handlers, and the JSX rendering
expressions for an analysis record.

Part 2 embeds the audio biomarker extraction engine.  The engine's code
(api/analyze-voice.py) is not part of the visible repository, so it is
modelled from the specification; every such definition carries a doc comment
starting with "Modelled from the spec:".
-/

namespace AudioAge

/-- Model of a JS File / Blob value as seen by the component: a MIME type
string (the JS `file.type`) plus an opaque payload. -/
structure AudioFile where
  mime : String
  payload : List Nat
deriving DecidableEq, Repr

/-- Opaque model of a parsed JSON document (the value produced by
`response.json()`); the UI stores it without inspecting it. -/
structure JsonDoc where
  raw : String
deriving DecidableEq, Repr

/-- React state of VoiceBiomarkerApp: the five useState hooks
(isRecording, audioBlob, analysis, loading, error). -/
structure UIState where
  isRecording : Bool
  audioBlob : Option AudioFile
  analysis : Option JsonDoc
  loading : Bool
  error : Option String
deriving DecidableEq, Repr

/-- Outcome of `response.json()`: either a parsed document or a rejection. -/
inductive BodyParse where
  | ok (doc : JsonDoc)
  | fail (msg : String)
deriving DecidableEq, Repr

/-- Outcome of the `fetch` call in analyzeAudio: either the promise rejects
(network error, message of the thrown Error), or a response arrives with an
`ok` flag and a body-parse outcome. -/
inductive FetchOutcome where
  | reject (msg : String)
  | response (ok : Bool) (body : BodyParse)
deriving DecidableEq, Repr

/-- The HTTP request issued by analyzeAudio: URL, method, multipart form
field name, file name given to FormData.append, and the posted blob. -/
structure HttpRequest where
  url : String
  method : String
  formFieldName : String
  fileName : String
  payload : AudioFile
deriving DecidableEq, Repr

/-- Embedding of JavaScript String.prototype.startsWith as used on line 75
of the component: true when the second string's characters are a prefix of
the first string's characters. -/
def strStartsWith (s pre : String) : Bool := pre.data.isPrefixOf s.data

/-- Embedding of handleFileUpload (src/voice-biomarker.tsx lines 73-81):
take `event.target.files[0]` (possibly absent); if it exists and its MIME
type starts with "audio/", store it as audioBlob and clear the error,
otherwise set the error message and leave audioBlob untouched. -/
def handleFileUpload (s : UIState) (file : Option AudioFile) : UIState :=
  match file with
  | some f =>
    if strStartsWith f.mime "audio/" then
      { s with audioBlob := some f, error := none }
    else
      { s with error := some "Please select a valid audio file" }
  | none => { s with error := some "Please select a valid audio file" }

/-- Embedding of analyzeAudio (src/voice-biomarker.tsx lines 45-71) as a
state transition.  The external fetch is a parameter (`outcome`).  Returns
the final state together with the request that was posted (none when the
function returned early because audioBlob was null).  The try/catch/finally
structure is compiled into the four explicit outcome paths; the `finally`
clause makes loading false on every completed path. -/
def analyzeAudio (s : UIState) (outcome : FetchOutcome) :
    UIState × Option HttpRequest :=
  match s.audioBlob with
  | none => (s, none)
  | some blob =>
    let req : HttpRequest :=
      { url := "/api/analyze-voice", method := "POST",
        formFieldName := "audio", fileName := "recording.wav",
        payload := blob }
    let s1 : UIState := { s with loading := true, error := none }
    match outcome with
    | .reject msg =>
        ({ s1 with error := some ("Error analyzing audio: " ++ msg),
                   loading := false }, some req)
    | .response ok body =>
        if ok then
          match body with
          | .ok doc =>
              ({ s1 with analysis := some doc, loading := false }, some req)
          | .fail msg =>
              ({ s1 with error := some ("Error analyzing audio: " ++ msg),
                         loading := false }, some req)
        else
          ({ s1 with error := some "Error analyzing audio: Analysis failed",
                     loading := false }, some req)

/-- Kernel-computable rational addition.  Core marks the arithmetic of ℚ
irreducible, which blocks evaluation of concrete runs inside proofs, so the
model uses explicitly normalizing operations; each is proved equal to the
standard operation just below, and the lemmas let every abstract proof work
with ordinary rational arithmetic. -/
def qAdd (a b : ℚ) : ℚ :=
  mkRat (a.num * b.den + b.num * a.den) (a.den * b.den)

/-- Kernel-computable rational subtraction. -/
def qSub (a b : ℚ) : ℚ :=
  mkRat (a.num * b.den - b.num * a.den) (a.den * b.den)

/-- Kernel-computable rational multiplication. -/
def qMul (a b : ℚ) : ℚ := mkRat (a.num * b.num) (a.den * b.den)

/-- Kernel-computable rational division; division by zero yields 0, the
same convention as the standard operation. -/
def qDiv (a b : ℚ) : ℚ :=
  mkRat (a.num * b.den * (if b.num < 0 then -1 else 1)) (a.den * b.num.natAbs)

/-- Kernel-computable absolute value. -/
def qAbs (a : ℚ) : ℚ := mkRat (a.num.natAbs : ℤ) a.den

/-- Kernel-computable embedding of a natural number. -/
def qOfNat (n : ℕ) : ℚ := mkRat (n : ℤ) 1

/-- Kernel-computable comparison, cross-multiplied form. -/
def qLe (a b : ℚ) : Bool :=
  decide (a.num * (b.den : ℤ) ≤ b.num * (a.den : ℤ))

/-- Kernel-computable strict comparison. -/
def qLt (a b : ℚ) : Bool :=
  decide (a.num * (b.den : ℤ) < b.num * (a.den : ℤ))

/-- Kernel-computable zero test (ℚ is kept reduced, so the numerator
decides it). -/
def qIsZero (a : ℚ) : Bool := a.num == 0

/-- Kernel-computable binary maximum. -/
def qMax (a b : ℚ) : ℚ := if qLe a b then b else a

/-- Kernel-computable binary minimum. -/
def qMin (a b : ℚ) : ℚ := if qLe a b then a else b

/-- Pair up adjacent elements with qAdd, halving the list. -/
def qPairUp : List ℚ → List ℚ
  | [] => []
  | [x] => [x]
  | x :: y :: rest => qAdd x y :: qPairUp rest

/-- Fuelled balanced summation; the fuel only bounds the number of halving
rounds, so any fuel at least the list length computes the sum.  The
balanced shape keeps evaluation depth logarithmic, which concrete runs
inside proofs need. -/
def qSumAux : ℕ → List ℚ → ℚ
  | _, [] => 0
  | _, [x] => x
  | 0, _ :: _ :: _ => 0
  | fuel + 1, x :: y :: rest => qSumAux fuel (qPairUp (x :: y :: rest))

/-- Kernel-computable list sum. -/
def qSum (l : List ℚ) : ℚ := qSumAux l.length l

/-- Kernel-computable floor (the denominator is positive, so flooring
divides num by den, rounding toward negative infinity). -/
def qFloor (a : ℚ) : ℤ := Int.fdiv a.num a.den


/-- Left-pad a digit string with zeros up to length d. -/
def padZeros (d : Nat) (s : String) : String :=
  String.mk (List.replicate (d - s.length) '0') ++ s

/-- Embedding of JavaScript Number.prototype.toFixed over exact rationals:
the integer n closest to x times 10^d is chosen (ties pick the larger n, as
in the ECMAScript definition), then printed with d decimals.  Negative zero
is printed without a sign, which is irrelevant to the rendered claims. -/
def jsToFixed (d : Nat) (x : ℚ) : String :=
  let n : ℤ := qFloor (qAdd (qMul x (qOfNat (10 ^ d))) (mkRat 1 2))
  let m : ℕ := n.natAbs
  let base : ℕ := 10 ^ d
  (if n < 0 then "-" else "") ++ toString (m / base) ++
    (if d = 0 then "" else "." ++ padZeros d (toString (m % base)))

/-- Embedding of the JSX expression on line 198,
`analysis.cadence?.toFixed(1) || 'N/A'`: optional chaining yields undefined
on a null field (falsy, so 'N/A'); on a number the toFixed string is used
unless it is the empty string (the only falsy string). -/
def renderCadence (v : Option ℚ) : String :=
  match v with
  | none => "N/A"
  | some x => if jsToFixed 1 x = "" then "N/A" else jsToFixed 1 x

/-- Embedding of the JSX expression on line 208,
`analysis.pitch_mean?.toFixed(0) || 'N/A'`. -/
def renderPitchMean (v : Option ℚ) : String :=
  match v with
  | none => "N/A"
  | some x => if jsToFixed 0 x = "" then "N/A" else jsToFixed 0 x

/-- Embedding of the JSX expression on line 234,
`analysis.pitch_std?.toFixed(1) || 'N/A'`. -/
def renderPitchStd (v : Option ℚ) : String :=
  match v with
  | none => "N/A"
  | some x => if jsToFixed 1 x = "" then "N/A" else jsToFixed 1 x

/-- Embedding of the JSX expressions on lines 219 and 223,
`analysis.cough_count || 0` and `analysis.sneeze_count || 0`: a JS `||`
on a number replaces the falsy value 0 (or a null field) by 0 and keeps
any other number. -/
def renderCount (v : Option ℤ) : ℤ :=
  match v with
  | none => 0
  | some n => if n = 0 then 0 else n

/-- Text the DOM shows for a count cell: JSX stringifies the number. -/
def renderCountText (v : Option ℤ) : String :=
  toString (renderCount v)

/-- Modelled from the spec: the engine's output record (section 6 JSON
shape), with nullable numeric fields as Option and the two counts as
naturals.  The engine code (api/analyze-voice.py) is absent from the
repository. -/
structure AnalysisResult where
  cadence : Option ℚ
  pitch_mean : Option ℚ
  pitch_std : Option ℚ
  cough_count : ℕ
  sneeze_count : ℕ
  tone_quality : String
  speech_rate : String
  health_insights : String
deriving DecidableEq, Repr

/-- JSON scalar values as they appear in the serialized report. -/
inductive JsonVal where
  | null
  | num (q : ℚ)
  | int (n : ℤ)
  | str (s : String)
deriving DecidableEq, Repr

/-- Serialization of a nullable measurement: null stays null. -/
def optNumJson : Option ℚ → JsonVal
  | none => .null
  | some q => .num q

/-- Modelled from the spec: serialization of an AnalysisResult as the
section 6 JSON object, field names and order as written there. -/
def AnalysisResult.toJson (r : AnalysisResult) : List (String × JsonVal) :=
  [("cadence", optNumJson r.cadence),
   ("pitch_mean", optNumJson r.pitch_mean),
   ("pitch_std", optNumJson r.pitch_std),
   ("cough_count", .int (r.cough_count : ℤ)),
   ("sneeze_count", .int (r.sneeze_count : ℤ)),
   ("tone_quality", .str r.tone_quality),
   ("speech_rate", .str r.speech_rate),
   ("health_insights", .str r.health_insights)]

/-- Field names of the engine's serialized output, in section 6 order. -/
def engineOutputFields : List String :=
  ["cadence", "pitch_mean", "pitch_std", "cough_count", "sneeze_count",
   "tone_quality", "speech_rate", "health_insights"]

/-- The distinct member accesses on `analysis` performed by the rendering
JSX of VoiceBiomarkerApp (src/voice-biomarker.tsx lines 188-253), in the
order they occur: cadence (198), pitch_mean (208), cough_count (219),
sneeze_count (223), pitch_std (234), tone_quality (238), speech_rate (242),
health_insights (248/251). -/
def uiFieldsRead : List String :=
  ["cadence", "pitch_mean", "cough_count", "sneeze_count", "pitch_std",
   "tone_quality", "speech_rate", "health_insights"]

/-- Modelled from the spec: the engine's threshold constants (design note
in section 9: fixed heuristics, re-architected as an explicit configuration
structure with named defaults). -/
structure EngineConfig where
  windowMs : ℕ := 25
  hopMs : ℕ := 10
  normTarget : ℚ := mkRat 1 1
  voicingFactor : ℚ := mkRat 4 1
  minVoiceEnergy : ℚ := mkRat 1 1000000
  burstEnergyFactor : ℚ := mkRat 1 2
  flatnessThreshold : ℚ := mkRat 1 2
  minEventMs : ℕ := 50
  maxEventMs : ℕ := 1500
  sneezeMaxMs : ℕ := 80
  sneezeMinCentroid : ℚ := mkRat 1 2
  maxGapMs : ℕ := 200
  syllablesPerWord : ℚ := mkRat 3 2
  slowWpm : ℚ := mkRat 110 1
  fastWpm : ℚ := mkRat 160 1
  jitterStable : ℚ := mkRat 1 100
  jitterVariable : ℚ := mkRat 5 100
deriving DecidableEq, Repr

/-- Default engine configuration. -/
def defaultConfig : EngineConfig := {}

/-- Arithmetic mean of a list of rationals; the empty list yields 0
(rational division by zero). -/
def meanQ (w : List ℚ) : ℚ := qDiv (qSum w) (qOfNat w.length)

/-- Pair up adjacent elements with qMax, halving the list. -/
def qMaxPairUp : List ℚ → List ℚ
  | [] => []
  | [x] => [x]
  | x :: y :: rest => qMax x y :: qMaxPairUp rest

/-- Fuelled balanced maximum, like qSumAux. -/
def maxQAux : ℕ → List ℚ → ℚ
  | _, [] => 0
  | _, [x] => x
  | 0, _ :: _ :: _ => 0
  | fuel + 1, x :: y :: rest => maxQAux fuel (qMaxPairUp (x :: y :: rest))

/-- Maximum of a nonempty list of rationals; 0 on the empty list. -/
def maxQ (l : List ℚ) : ℚ := maxQAux l.length l

/-- Pair up adjacent elements with qMin, halving the list. -/
def qMinPairUp : List ℚ → List ℚ
  | [] => []
  | [x] => [x]
  | x :: y :: rest => qMin x y :: qMinPairUp rest

/-- Fuelled balanced minimum, like qSumAux. -/
def minQAux : ℕ → List ℚ → ℚ
  | _, [] => 0
  | _, [x] => x
  | 0, _ :: _ :: _ => 0
  | fuel + 1, x :: y :: rest => minQAux fuel (qMinPairUp (x :: y :: rest))

/-- Minimum of a nonempty list of rationals; 0 on the empty list. -/
def minQ (l : List ℚ) : ℚ := minQAux l.length l

/-- Linear reference form of maxQ, the version abstract proofs use. -/
def maxQLin : List ℚ → ℚ
  | [] => 0
  | [x] => x
  | x :: y :: rest => max x (maxQLin (y :: rest))

/-- Linear reference form of minQ. -/
def minQLin : List ℚ → ℚ
  | [] => 0
  | [x] => x
  | x :: y :: rest => min x (minQLin (y :: rest))

/-- Modelled from the spec: DC-bias removal (subtract the mean,
section 4.1). -/
def dcRemove (w : List ℚ) : List ℚ :=
  let m := meanQ w
  w.map (fun x => qSub x m)

/-- Peak absolute amplitude of a waveform. -/
def peakAmp (w : List ℚ) : ℚ := maxQ (w.map qAbs)

/-- Modelled from the spec: peak normalization to the fixed target
amplitude (section 4.1); only reached on non-silent input, where the peak
is nonzero. -/
def normalizedOf (cfg : EngineConfig) (w : List ℚ) : List ℚ :=
  let d := dcRemove w
  let scale := qDiv cfg.normTarget (peakAmp d)
  d.map (fun x => qMul x scale)

/-- Frame window length in samples (25 ms at the given sample rate). -/
def windowSamples (cfg : EngineConfig) (sr : ℕ) : ℕ := cfg.windowMs * sr / 1000

/-- Frame hop length in samples (10 ms at the given sample rate). -/
def hopSamples (cfg : EngineConfig) (sr : ℕ) : ℕ := cfg.hopMs * sr / 1000

/-- Modelled from the spec: start offsets of the analysis frames; a clip
shorter than one frame length yields a single frame covering the whole
clip (edge case in section 4.1). -/
def frameStarts (window hop n : ℕ) : List ℕ :=
  if n < window then [0]
  else (List.range ((n - window) / hop + 1)).map (fun k => k * hop)

/-- One frame: a fixed-length slice of the waveform with its start-sample
offset (section 3 data model). -/
structure Frame where
  start : ℕ
  samples : List ℚ
deriving DecidableEq, Repr

/-- Slice one frame out of the waveform. -/
def frameAt (w : List ℚ) (window start : ℕ) : Frame :=
  { start := start, samples := (w.drop start).take window }

/-- End offset (exclusive) of a frame. -/
def frameEnd (f : Frame) : ℕ := f.start + f.samples.length

/-- Modelled from the spec: the ordered frame sequence of the preprocessed
(DC-removed, peak-normalized) waveform. -/
def framesOf (cfg : EngineConfig) (w : List ℚ) (sr : ℕ) : List Frame :=
  (frameStarts (windowSamples cfg sr) (hopSamples cfg sr) w.length).map
    (frameAt (normalizedOf cfg w) (windowSamples cfg sr))

/-- Modelled from the spec: per-frame energy.  The spec asks for RMS
energy; the model uses the mean-square power, a monotone-equivalent
quantity compared against squared thresholds, which keeps all arithmetic
rational. -/
def power (xs : List ℚ) : ℚ :=
  qDiv (qSum (xs.map (fun x => qMul x x))) (qOfNat xs.length)

/-- Count of sign changes between adjacent samples. -/
def signChanges : List ℚ → ℕ
  | [] => 0
  | [_] => 0
  | x :: y :: rest =>
    (if qLt (qMul x y) 0 then 1 else 0) + signChanges (y :: rest)

/-- Modelled from the spec: the per-frame spectral-flatness measure
(section 4.4).  The frequency-domain quantity is modelled by a broadband
proxy, the zero-crossing ratio, since the spec fixes only its role as a
signal compared against a broadness threshold. -/
def flatnessProxy (xs : List ℚ) : ℚ :=
  qDiv (qOfNat (signChanges xs)) (qOfNat (xs.length - 1))

/-- Sum of absolute first differences of a list. -/
def absDiffSum : List ℚ → ℚ
  | [] => 0
  | [_] => 0
  | x :: y :: rest => qAdd (qAbs (qSub y x)) (absDiffSum (y :: rest))

/-- Sum of absolute values of a list. -/
def absSum (xs : List ℚ) : ℚ := qSum (xs.map qAbs)

/-- Modelled from the spec: the per-frame spectral-centroid measure
(section 4.4), modelled by a high-frequency-content proxy (normalized mean
absolute first difference); 0 on an all-zero frame. -/
def centroidProxy (xs : List ℚ) : ℚ :=
  qDiv (absDiffSum xs) (qMul (qOfNat 2) (absSum xs))

/-- Per-frame energies of the clip. -/
def energiesOf (cfg : EngineConfig) (w : List ℚ) (sr : ℕ) : List ℚ :=
  (framesOf cfg w sr).map (fun f => power f.samples)

/-- Modelled from the spec: the clip's own noise floor, the minimum frame
energy (section 4.1: the voicing threshold adapts per clip). -/
def noiseFloorOf (cfg : EngineConfig) (w : List ℚ) (sr : ℕ) : ℚ :=
  minQ (energiesOf cfg w sr)

/-- Maximum frame energy of the clip (reference point for the burst
threshold, keeping it relative to the clip's own loudness). -/
def maxEnergyOf (cfg : EngineConfig) (w : List ℚ) (sr : ℕ) : ℚ :=
  maxQ (energiesOf cfg w sr)

/-- Modelled from the spec: the energy-based voicing threshold, relative
to the clip's own noise floor plus a small absolute floor so that silence
is never voiced. -/
def voicedThresholdOf (cfg : EngineConfig) (w : List ℚ) (sr : ℕ) : ℚ :=
  qAdd (qMul cfg.voicingFactor (noiseFloorOf cfg w sr)) cfg.minVoiceEnergy

/-- Voicing predicate for one frame, given the clip-level threshold. -/
def voicedP (thr : ℚ) (f : Frame) : Bool := qLt thr (power f.samples)

/-- Per-frame voicing flags, ordered by frame index. -/
def voicedFlagsOf (cfg : EngineConfig) (w : List ℚ) (sr : ℕ) : List Bool :=
  (framesOf cfg w sr).map (voicedP (voicedThresholdOf cfg w sr))

/-- Voiced frames of the clip, in temporal order. -/
def voicedFramesOf (cfg : EngineConfig) (w : List ℚ) (sr : ℕ) : List Frame :=
  (framesOf cfg w sr).filter (voicedP (voicedThresholdOf cfg w sr))

/-- Smallest candidate pitch lag: sr divided by the 500 Hz band top. -/
def minLag (sr : ℕ) : ℕ := sr / 500

/-- Largest candidate pitch lag: sr divided by the 75 Hz band bottom. -/
def maxLag (sr : ℕ) : ℕ := sr / 75

/-- Autocorrelation of a frame at one lag. -/
def autocorrAt (xs : List ℚ) (lag : ℕ) : ℚ :=
  qSum (List.zipWith qMul xs (xs.drop lag))

/-- Fold selecting the lag with the greatest autocorrelation; on ties the
earlier (smaller) lag is kept. -/
def bestLagFold (xs : List ℚ) (lags : List ℕ) : Option (ℕ × ℚ) :=
  lags.foldl
    (fun best lag =>
      match best with
      | none => some (lag, autocorrAt xs lag)
      | some (bl, bv) =>
          if qLt bv (autocorrAt xs lag) then some (lag, autocorrAt xs lag)
          else some (bl, bv))
    none

/-- Modelled from the spec: autocorrelation-based fundamental-frequency
estimation restricted to the plausible human-voice band of roughly 75-500
Hz (section 4.2); none when no candidate lag fits inside the frame. -/
def estimateF0 (sr : ℕ) (xs : List ℚ) : Option ℚ :=
  let lags := ((List.range (maxLag sr + 1)).drop (minLag sr)).filter
    (fun t => decide (t ≠ 0 ∧ t < xs.length))
  match bestLagFold xs lags with
  | none => none
  | some (bl, _) => some (qDiv (qOfNat sr) (qOfNat bl))

/-- Estimated f0 series over the voiced frames (unvoiced frames are
excluded from pitch statistics, not assigned f0 = 0). -/
def f0sOf (cfg : EngineConfig) (w : List ℚ) (sr : ℕ) : List ℚ :=
  (voicedFramesOf cfg w sr).filterMap (fun f => estimateF0 sr f.samples)

/-- Modelled from the spec: pitch_mean, the arithmetic mean of f0 over the
voiced frames; unavailable (none) when no voiced frames exist. -/
def pitchMeanOf (cfg : EngineConfig) (w : List ℚ) (sr : ℕ) : Option ℚ :=
  match f0sOf cfg w sr with
  | [] => none
  | xs => some (meanQ xs)

/-- Fixed-precision rational square root (floor at 10^-6 resolution),
standing in for the engine's floating-point square root. -/
def ratSqrt (q : ℚ) : ℚ :=
  if qLe q 0 then 0
  else qDiv (qOfNat (Nat.sqrt (Int.toNat
    (qFloor (qMul q (qOfNat 1000000000000)))))) (qOfNat 1000000)

/-- Sample variance (n - 1 denominator) of a list; 0 on lists of fewer
than two elements via rational division by zero. -/
def sampleVar (xs : List ℚ) : ℚ :=
  let m := meanQ xs
  qDiv (qSum (xs.map (fun x => qMul (qSub x m) (qSub x m))))
    (qOfNat (xs.length - 1))

/-- Modelled from the spec: pitch_std, the sample standard deviation of f0
over the voiced frames; unavailable (none) when no voiced frames exist. -/
def pitchStdOf (cfg : EngineConfig) (w : List ℚ) (sr : ℕ) : Option ℚ :=
  match f0sOf cfg w sr with
  | [] => none
  | xs => some (ratSqrt (sampleVar xs))

/-- Group maximal runs of consecutive frames satisfying p, dropping the
frames that do not satisfy it; each group is returned in temporal order. -/
def groupRuns (p : Frame → Bool) : List Frame → List (List Frame)
  | [] => []
  | [f] => if p f then [[f]] else []
  | f :: f2 :: rest =>
    if p f then
      if p f2 then
        match groupRuns p (f2 :: rest) with
        | g :: gs => (f :: g) :: gs
        | [] => [[f]]
      else [f] :: groupRuns p (f2 :: rest)
    else groupRuns p (f2 :: rest)

/-- Modelled from the spec: gap-closing accumulator merging two voiced runs
separated by a silence gap shorter than the configured maximum
(section 4.3). -/
def mergeGapsAux (maxGap : ℕ) (cur : List Frame) :
    List (List Frame) → List (List Frame)
  | [] => [cur]
  | g :: rest =>
    let e := (cur.getLast?.map frameEnd).getD 0
    let s := (g.head?.map Frame.start).getD 0
    if s - e < maxGap then mergeGapsAux maxGap (cur ++ g) rest
    else cur :: mergeGapsAux maxGap g rest

/-- Merge adjacent groups whose separating gap is below maxGap samples. -/
def mergeGaps (maxGap : ℕ) : List (List Frame) → List (List Frame)
  | [] => []
  | g :: rest => mergeGapsAux maxGap g rest

/-- Gap-closing threshold in samples. -/
def maxGapSamples (cfg : EngineConfig) (sr : ℕ) : ℕ := cfg.maxGapMs * sr / 1000

/-- Modelled from the spec: SpeechSegments, contiguous runs of voiced
frames after gap-closing (section 4.3). -/
def segmentsOf (cfg : EngineConfig) (w : List ℚ) (sr : ℕ) :
    List (List Frame) :=
  mergeGaps (maxGapSamples cfg sr)
    (groupRuns (voicedP (voicedThresholdOf cfg w sr)) (framesOf cfg w sr))

/-- Duration of a frame group in samples, first start to last end. -/
def groupSpanSamples (g : List Frame) : ℕ :=
  (g.getLast?.map frameEnd).getD 0 - (g.head?.map Frame.start).getD 0

/-- Modelled from the spec: total speaking time, the sum of SpeechSegment
durations, in seconds. -/
def speakingTimeOf (cfg : EngineConfig) (w : List ℚ) (sr : ℕ) : ℚ :=
  qDiv (qSum ((segmentsOf cfg w sr).map (fun g => qOfNat (groupSpanSamples g))))
    (qOfNat sr)

/-- Three-point moving average used to smooth the energy envelope. -/
def smooth3 : List ℚ → List ℚ
  | [] => []
  | [x] => [x]
  | [x, y] => [qDiv (qAdd x y) (qOfNat 2), qDiv (qAdd x y) (qOfNat 2)]
  | x :: y :: z :: rest =>
    qDiv (qAdd (qAdd x y) z) (qOfNat 3) :: smooth3 (y :: z :: rest)

/-- Count local maxima strictly above thr; a peak must strictly exceed its
successor so that a plateau is counted once, realizing the minimum peak
separation of section 4.3 at the frame scale. -/
def countPeaksAux (thr : ℚ) (prev : ℚ) : List ℚ → ℕ
  | [] => 0
  | [x] => if qLe prev x && qLt thr x then 1 else 0
  | x :: y :: rest =>
    (if qLe prev x && qLt y x && qLt thr x then 1 else 0) +
      countPeaksAux thr x (y :: rest)

/-- Peak count of an energy envelope above a dynamic threshold. -/
def countPeaks (thr : ℚ) : List ℚ → ℕ
  | [] => 0
  | x :: rest => countPeaksAux thr x (x :: rest)

/-- Modelled from the spec: syllable-like events of one segment via
energy-envelope peak picking over the smoothed energies, with the dynamic
threshold set to half the segment's mean energy. -/
def segmentSyllables (g : List Frame) : ℕ :=
  countPeaks (qDiv (meanQ (g.map (fun f => power f.samples))) (qOfNat 2))
    (smooth3 (g.map (fun f => power f.samples)))

/-- Total syllable proxy count of the clip. -/
def syllableCountOf (cfg : EngineConfig) (w : List ℚ) (sr : ℕ) : ℕ :=
  ((segmentsOf cfg w sr).map segmentSyllables).sum

/-- Modelled from the spec: cadence in words per minute, the syllable
proxy converted to words by the fixed syllables-per-word constant and
divided by the speaking time; unavailable (none) on zero speaking time. -/
def cadenceOf (cfg : EngineConfig) (w : List ℚ) (sr : ℕ) : Option ℚ :=
  if qLe (speakingTimeOf cfg w sr) 0 then none
  else
    some (qDiv (qDiv (qOfNat (syllableCountOf cfg w sr)) cfg.syllablesPerWord)
      (qDiv (speakingTimeOf cfg w sr) (qOfNat 60)))

/-- Detected respiratory Event: a half-open sample interval plus its peak
broadband centroid measure (section 3 data model). -/
structure Event where
  startSample : ℕ
  endSample : ℕ
  centroid : ℚ
deriving DecidableEq, Repr

/-- Burst predicate of the event detector: energy above the burst threshold
(relative to the clip's maximum frame energy) and flatness above the
broadness threshold (section 4.4). -/
def burstP (cfg : EngineConfig) (maxE : ℚ) (f : Frame) : Bool :=
  qLe (qMul cfg.burstEnergyFactor maxE) (power f.samples) &&
    qLe cfg.flatnessThreshold (flatnessProxy f.samples)

/-- Build the Event of one group of consecutive burst-flagged frames. -/
def mkEvent (g : List Frame) : Event :=
  { startSample := (g.head?.map Frame.start).getD 0,
    endSample := (g.getLast?.map frameEnd).getD 0,
    centroid := maxQ (g.map (fun f => centroidProxy f.samples)) }

/-- Event duration in samples. -/
def eventSpan (e : Event) : ℕ := e.endSample - e.startSample

/-- Modelled from the spec: the duration gate of section 4.4, discarding
sub-minimum blips and events longer than the respiratory ceiling; the
comparisons are done in milliseconds scaled by the sample rate. -/
def eventKeep (cfg : EngineConfig) (sr : ℕ) (e : Event) : Bool :=
  decide (cfg.minEventMs * sr ≤ eventSpan e * 1000 ∧
    eventSpan e * 1000 ≤ cfg.maxEventMs * sr)

/-- Modelled from the spec: the ordered Event sequence of the clip. -/
def eventsOf (cfg : EngineConfig) (w : List ℚ) (sr : ℕ) : List Event :=
  ((groupRuns (burstP cfg (maxEnergyOf cfg w sr)) (framesOf cfg w sr)).map
    mkEvent).filter (eventKeep cfg sr)

/-- Modelled from the spec: cough versus sneeze heuristic of section 4.4;
true means sneeze (shorter event with a higher centroid), false means
cough. -/
def classifySneeze (cfg : EngineConfig) (sr : ℕ) (e : Event) : Bool :=
  decide (eventSpan e * 1000 < cfg.sneezeMaxMs * sr) &&
    qLe cfg.sneezeMinCentroid e.centroid

/-- Tally of events classified as coughs. -/
def coughCountOf (cfg : EngineConfig) (w : List ℚ) (sr : ℕ) : ℕ :=
  ((eventsOf cfg w sr).filter (fun e => !classifySneeze cfg sr e)).length

/-- Tally of events classified as sneezes. -/
def sneezeCountOf (cfg : EngineConfig) (w : List ℚ) (sr : ℕ) : ℕ :=
  ((eventsOf cfg w sr).filter (fun e => classifySneeze cfg sr e)).length

/-- Mean absolute frame-to-frame f0 change of the f0 series. -/
def meanAbsDiff (xs : List ℚ) : ℚ :=
  qDiv (absDiffSum xs) (qOfNat (xs.length - 1))

/-- Modelled from the spec: relative pitch jitter, the mean absolute
frame-to-frame f0 change divided by pitch_mean (section 4.5); unavailable
without voiced frames. -/
def jitterOf (cfg : EngineConfig) (w : List ℚ) (sr : ℕ) : Option ℚ :=
  match pitchMeanOf cfg w sr with
  | none => none
  | some m =>
    if qIsZero m then none
    else some (qDiv (meanAbsDiff (f0sOf cfg w sr)) m)

/-- Modelled from the spec: the ordinal tone label of section 4.5; the
baseline label is used when jitter is unavailable. -/
def toneLabel (cfg : EngineConfig) (j : Option ℚ) : String :=
  match j with
  | none => "Normal"
  | some v =>
    if qLt v cfg.jitterStable then "Stable"
    else if qLe v cfg.jitterVariable then "Normal"
    else "Variable"

/-- Modelled from the spec: the speech-rate band label of section 4.5,
with the unavailable-cadence marker the UI renders verbatim. -/
def rateLabel (cfg : EngineConfig) (c : Option ℚ) : String :=
  match c with
  | none => "N/A"
  | some v =>
    if qLt v cfg.slowWpm then "Slow"
    else if qLe v cfg.fastWpm then "Normal"
    else "Fast"

/-- Modelled from the spec: the templated narrative string of section 4.6,
a pure function of the numeric fields; clauses for unavailable fields are
omitted and the baseline text is returned when no threshold is crossed. -/
def insightsText (cfg : EngineConfig) (cough sneeze : ℕ) (cad : Option ℚ)
    (tone : String) : String :=
  let cs : List String :=
    (if 3 ≤ cough then ["Elevated cough activity detected."] else []) ++
    (if 3 ≤ sneeze then ["Frequent sneezing detected."] else []) ++
    (match cad with
     | none => []
     | some c =>
       if qLt cfg.fastWpm c then ["Speech rate is faster than typical."]
       else if qLt c cfg.slowWpm then ["Speech rate is slower than typical."]
       else []) ++
    (if tone = "Variable" then ["Pitch stability is reduced."] else [])
  match cs with
  | [] => "Voice metrics are within typical ranges."
  | _ => String.intercalate " " cs

/-- Modelled from the spec: the Report Assembler of section 4.6, combining
the branch outputs into one AnalysisResult. -/
def assembleOf (cfg : EngineConfig) (w : List ℚ) (sr : ℕ) : AnalysisResult :=
  { cadence := cadenceOf cfg w sr,
    pitch_mean := pitchMeanOf cfg w sr,
    pitch_std := pitchStdOf cfg w sr,
    cough_count := coughCountOf cfg w sr,
    sneeze_count := sneezeCountOf cfg w sr,
    tone_quality := toneLabel cfg (jitterOf cfg w sr),
    speech_rate := rateLabel cfg (cadenceOf cfg w sr),
    health_insights := insightsText cfg (coughCountOf cfg w sr)
      (sneezeCountOf cfg w sr) (cadenceOf cfg w sr)
      (toneLabel cfg (jitterOf cfg w sr)) }

/-- Modelled from the spec: the SilentInput outcome of section 7, a valid
AnalysisResult with every measurable field null or 0 and the baseline
labels and narrative. -/
def emptyReport (cfg : EngineConfig) : AnalysisResult :=
  { cadence := none,
    pitch_mean := none,
    pitch_std := none,
    cough_count := 0,
    sneeze_count := 0,
    tone_quality := toneLabel cfg none,
    speech_rate := rateLabel cfg none,
    health_insights := insightsText cfg 0 0 none (toneLabel cfg none) }

/-- Modelled from the spec: the engine's error taxonomy (section 7);
SilentInput is not an error but a valid report, so it does not appear
here. -/
inductive EngineError where
  | unsupportedFormat
  | processingTimeout
  | internalError
deriving DecidableEq, Repr

/-- Modelled from the spec: the whole engine, waveform and sample rate to
report.  Sample rates below 4 kHz are rejected as UnsupportedFormat
(section 4.1); a waveform whose DC-removed peak is zero is the SilentInput
outcome returning the baseline report; otherwise the preprocessed frames
feed the three independent branches and the Report Assembler. -/
def analyze (cfg : EngineConfig) (w : List ℚ) (sr : ℕ) :
    Except EngineError AnalysisResult :=
  if sr < 4000 then .error .unsupportedFormat
  else if qIsZero (peakAmp (dcRemove w)) then .ok (emptyReport cfg)
  else .ok (assembleOf cfg w sr)

deriving instance DecidableEq for Except

/-- Failure discriminator of a fetch outcome: the promise rejected or the
response arrived with ok set to false (the path that throws
'Analysis failed' before the body is read). -/
def fetchFailed : FetchOutcome → Bool
  | .reject _ => true
  | .response ok _ => !ok

/-- Alternating full-scale block: n pairs of samples +1, -1.  Used as a
synthetic broadband burst (every adjacent pair is a sign change). -/
def altBlock : ℕ → List ℚ
  | 0 => []
  | n + 1 => mkRat 1 1 :: mkRat (-1) 1 :: altBlock n

/-- Alternating half-scale block: n pairs of samples +1/2, -1/2. -/
def halfAltBlock : ℕ → List ℚ
  | 0 => []
  | n + 1 => mkRat 1 2 :: mkRat (-1) 2 :: halfAltBlock n

/-- Concrete clip for the concatenation counterexample: 220 samples of a
full-scale alternating burst (55 ms at 4 kHz), one detected event under the
default configuration. -/
def clipB : List ℚ := altBlock 110

/-- Concrete clip for the aligned concatenation witness: 200 samples of
full-scale burst followed by 100 samples of half-scale filler, 300 samples
in total (a multiple of the 100-sample frame of the tiled config). -/
def clipG : List ℚ := altBlock 100 ++ halfAltBlock 50

/-- Tiled variant of the configuration: hop equal to the window, so frames
partition the clip without overlap. -/
def cfgTiled : EngineConfig := { hopMs := 25 }

/-- Measured size of src/voice-biomarker.tsx in the repository: 294 text
lines (293 newline characters plus an unterminated final line). -/
def uiComponentLineCount : ℕ := 294

/-- Measured size of src/README.md in the repository: 319 text lines (318
newline characters plus an unterminated final line). -/
def readmeLineCount : ℕ := 319

/-- Shift a frame's start offset (the second copy of a concatenated clip
sees the same content at starts displaced by the first copy's length). -/
def shiftFrame (d : ℕ) (f : Frame) : Frame :=
  { start := f.start + d, samples := f.samples }

/-- Shift an Event's sample interval. -/
def shiftEvent (d : ℕ) (e : Event) : Event :=
  { startSample := e.startSample + d, endSample := e.endSample + d,
    centroid := e.centroid }

/-! ## Correctness of the kernel-computable rational operations -/

theorem qAdd_eq (a b : ℚ) : qAdd a b = a + b := by
  have ha : ((a.den : ℚ)) ≠ 0 := by
    exact_mod_cast a.den_nz
  have hb : ((b.den : ℚ)) ≠ 0 := by
    exact_mod_cast b.den_nz
  rw [qAdd, Rat.mkRat_eq_div]
  conv_rhs => rw [← Rat.num_div_den a, ← Rat.num_div_den b]
  rw [div_add_div _ _ ha hb]
  push_cast
  ring_nf

theorem qSub_eq (a b : ℚ) : qSub a b = a - b := by
  have ha : ((a.den : ℚ)) ≠ 0 := by
    exact_mod_cast a.den_nz
  have hb : ((b.den : ℚ)) ≠ 0 := by
    exact_mod_cast b.den_nz
  rw [qSub, Rat.mkRat_eq_div]
  conv_rhs => rw [← Rat.num_div_den a, ← Rat.num_div_den b]
  rw [div_sub_div _ _ ha hb]
  push_cast
  ring_nf

theorem qMul_eq (a b : ℚ) : qMul a b = a * b := by
  have ha : ((a.den : ℚ)) ≠ 0 := by
    exact_mod_cast a.den_nz
  have hb : ((b.den : ℚ)) ≠ 0 := by
    exact_mod_cast b.den_nz
  rw [qMul, Rat.mkRat_eq_div]
  conv_rhs => rw [← Rat.num_div_den a, ← Rat.num_div_den b]
  rw [div_mul_div_comm]
  push_cast
  ring_nf

theorem qDiv_eq (a b : ℚ) : qDiv a b = a / b := by
  rcases eq_or_ne b 0 with rfl | hb0
  · rw [qDiv]
    simp
  · have had : ((a.den : ℚ)) ≠ 0 := by
      exact_mod_cast a.den_nz
    have hbd : ((b.den : ℚ)) ≠ 0 := by
      exact_mod_cast b.den_nz
    have hnum : b.num ≠ 0 := fun hh => hb0 (Rat.num_eq_zero.mp hh)
    have hbn : ((b.num : ℚ)) ≠ 0 := by
      exact_mod_cast hnum
    have main : ((a.num : ℚ) * b.den) / ((a.den : ℚ) * b.num) = a / b := by
      conv_rhs => rw [← Rat.num_div_den a, ← Rat.num_div_den b]
      field_simp
    rcases lt_or_gt_of_ne hnum with hb | hb
    · have hben : ((b.num.natAbs : ℚ)) = -((b.num : ℤ) : ℚ) := by
        rw [Int.cast_natAbs, abs_of_neg hb]
        push_cast
        ring
      rw [qDiv, if_pos hb, Rat.mkRat_eq_div, ← main]
      push_cast
      rw [hben]
      rw [div_eq_div_iff (by exact mul_ne_zero had (neg_ne_zero.mpr hbn))
        (by exact mul_ne_zero had hbn)]
      ring
    · have hben : ((b.num.natAbs : ℚ)) = ((b.num : ℤ) : ℚ) := by
        rw [Int.cast_natAbs, abs_of_pos hb]
      rw [qDiv, if_neg (by omega), Rat.mkRat_eq_div, ← main]
      push_cast
      rw [hben]
      ring_nf

theorem qAbs_eq (a : ℚ) : qAbs a = |a| := by
  rcases le_or_lt 0 a with h | h
  · have hn : 0 ≤ a.num := Rat.num_nonneg.mpr h
    have hna : ((a.num.natAbs : ℤ)) = a.num := by
      omega
    rw [qAbs, hna, abs_of_nonneg h, Rat.mkRat_self]
  · have hn : a.num < 0 := Rat.num_neg.mpr h
    have hna : ((a.num.natAbs : ℤ)) = -a.num := by
      omega
    have hd : ((a.den : ℚ)) ≠ 0 := by
      exact_mod_cast a.den_nz
    rw [qAbs, hna, abs_of_neg h, Rat.mkRat_eq_div]
    push_cast
    rw [neg_div]
    rw [Rat.num_div_den]

theorem qOfNat_eq (n : ℕ) : qOfNat n = (n : ℚ) := by
  rw [qOfNat, Rat.mkRat_one]
  push_cast
  rfl

theorem qLe_iff (a b : ℚ) : qLe a b = true ↔ a ≤ b := by
  rw [qLe, decide_eq_true_iff]
  exact Rat.le_def.symm

theorem qLt_iff (a b : ℚ) : qLt a b = true ↔ a < b := by
  rw [qLt, decide_eq_true_iff]
  exact Rat.lt_def.symm

theorem qLe_eq_decide (a b : ℚ) : qLe a b = decide (a ≤ b) := by
  rw [qLe, decide_eq_decide]
  exact Rat.le_def.symm

theorem qLt_eq_decide (a b : ℚ) : qLt a b = decide (a < b) := by
  rw [qLt, decide_eq_decide]
  exact Rat.lt_def.symm

theorem qIsZero_iff (a : ℚ) : qIsZero a = true ↔ a = 0 := by
  rw [qIsZero, beq_iff_eq]
  exact Rat.num_eq_zero

theorem qMax_eq (a b : ℚ) : qMax a b = max a b := by
  rw [qMax, max_def, qLe_eq_decide]
  by_cases h : a ≤ b
  · simp [h]
  · simp [h]

theorem qMin_eq (a b : ℚ) : qMin a b = min a b := by
  rw [qMin, min_def, qLe_eq_decide]
  by_cases h : a ≤ b
  · simp [h]
  · simp [h]

theorem qPairUp_sum : (l : List ℚ) → (qPairUp l).sum = l.sum
  | [] => rfl
  | [_] => rfl
  | x :: y :: rest => by
    rw [qPairUp, List.sum_cons, List.sum_cons, List.sum_cons, qAdd_eq,
      qPairUp_sum rest, add_assoc]

theorem qPairUp_length (l : List ℚ) :
    (qPairUp l).length = (l.length + 1) / 2 := by
  induction l using qPairUp.induct with
  | case1 => rfl
  | case2 => simp [qPairUp]
  | case3 x y rest ih =>
    rw [qPairUp, List.length_cons, ih]
    simp only [List.length_cons]
    omega

theorem qSumAux_eq : (fuel : ℕ) → (l : List ℚ) → l.length ≤ fuel →
    qSumAux fuel l = l.sum
  | fuel, [], _ => by
    cases fuel <;> simp [qSumAux]
  | fuel, [x], _ => by
    cases fuel <;> simp [qSumAux]
  | 0, _ :: _ :: _, h => by
    simp at h
  | fuel + 1, x :: y :: rest, h => by
    rw [qSumAux, qSumAux_eq fuel _ (by rw [qPairUp_length]; simp at h ⊢; omega),
      qPairUp_sum]

theorem qSum_eq (l : List ℚ) : qSum l = l.sum := qSumAux_eq _ _ le_rfl

theorem maxQLin_cons (x : ℚ) (l : List ℚ) (h : l ≠ []) :
    maxQLin (x :: l) = max x (maxQLin l) := by
  cases l with
  | nil => exact absurd rfl h
  | cons y ys => rfl

theorem minQLin_cons (x : ℚ) (l : List ℚ) (h : l ≠ []) :
    minQLin (x :: l) = min x (minQLin l) := by
  cases l with
  | nil => exact absurd rfl h
  | cons y ys => rfl

theorem qMaxPairUp_ne_nil (l : List ℚ) (h : l ≠ []) : qMaxPairUp l ≠ [] := by
  cases l with
  | nil => exact absurd rfl h
  | cons x xs =>
    cases xs with
    | nil => simp [qMaxPairUp]
    | cons y ys => simp [qMaxPairUp]

theorem qMinPairUp_ne_nil (l : List ℚ) (h : l ≠ []) : qMinPairUp l ≠ [] := by
  cases l with
  | nil => exact absurd rfl h
  | cons x xs =>
    cases xs with
    | nil => simp [qMinPairUp]
    | cons y ys => simp [qMinPairUp]

theorem qMaxPairUp_maxLin : (l : List ℚ) → maxQLin (qMaxPairUp l) = maxQLin l
  | [] => rfl
  | [_] => rfl
  | x :: y :: rest => by
    rw [qMaxPairUp]
    cases rest with
    | nil => simp [maxQLin, qMax_eq]
    | cons r rs =>
      rw [maxQLin_cons _ _ (qMaxPairUp_ne_nil _ (by simp)),
        qMaxPairUp_maxLin (r :: rs), qMax_eq,
        maxQLin_cons x (y :: r :: rs) (by simp), maxQLin_cons y (r :: rs) (by simp),
        max_assoc]

theorem qMinPairUp_minLin : (l : List ℚ) → minQLin (qMinPairUp l) = minQLin l
  | [] => rfl
  | [_] => rfl
  | x :: y :: rest => by
    rw [qMinPairUp]
    cases rest with
    | nil => simp [minQLin, qMin_eq]
    | cons r rs =>
      rw [minQLin_cons _ _ (qMinPairUp_ne_nil _ (by simp)),
        qMinPairUp_minLin (r :: rs), qMin_eq,
        minQLin_cons x (y :: r :: rs) (by simp), minQLin_cons y (r :: rs) (by simp),
        min_assoc]

theorem qMaxPairUp_length (l : List ℚ) :
    (qMaxPairUp l).length = (l.length + 1) / 2 := by
  induction l using qMaxPairUp.induct with
  | case1 => rfl
  | case2 => simp [qMaxPairUp]
  | case3 x y rest ih =>
    rw [qMaxPairUp, List.length_cons, ih]
    simp only [List.length_cons]
    omega

theorem qMinPairUp_length (l : List ℚ) :
    (qMinPairUp l).length = (l.length + 1) / 2 := by
  induction l using qMinPairUp.induct with
  | case1 => rfl
  | case2 => simp [qMinPairUp]
  | case3 x y rest ih =>
    rw [qMinPairUp, List.length_cons, ih]
    simp only [List.length_cons]
    omega

theorem maxQAux_eq : (fuel : ℕ) → (l : List ℚ) → l.length ≤ fuel →
    maxQAux fuel l = maxQLin l
  | fuel, [], _ => by
    cases fuel <;> simp [maxQAux, maxQLin]
  | fuel, [x], _ => by
    cases fuel <;> simp [maxQAux, maxQLin]
  | 0, _ :: _ :: _, h => by
    simp at h
  | fuel + 1, x :: y :: rest, h => by
    rw [maxQAux,
      maxQAux_eq fuel _ (by rw [qMaxPairUp_length]; simp at h ⊢; omega),
      qMaxPairUp_maxLin]

theorem minQAux_eq : (fuel : ℕ) → (l : List ℚ) → l.length ≤ fuel →
    minQAux fuel l = minQLin l
  | fuel, [], _ => by
    cases fuel <;> simp [minQAux, minQLin]
  | fuel, [x], _ => by
    cases fuel <;> simp [minQAux, minQLin]
  | 0, _ :: _ :: _, h => by
    simp at h
  | fuel + 1, x :: y :: rest, h => by
    rw [minQAux,
      minQAux_eq fuel _ (by rw [qMinPairUp_length]; simp at h ⊢; omega),
      qMinPairUp_minLin]

theorem maxQ_eq_lin (l : List ℚ) : maxQ l = maxQLin l := maxQAux_eq _ _ le_rfl

theorem minQ_eq_lin (l : List ℚ) : minQ l = minQLin l := minQAux_eq _ _ le_rfl

theorem qSum_zero (l : List ℚ) (h : ∀ x ∈ l, x = 0) : qSum l = 0 := by
  rw [qSum_eq]
  exact List.sum_eq_zero h

theorem meanQ_zero (l : List ℚ) (h : ∀ x ∈ l, x = 0) : meanQ l = 0 := by
  rw [meanQ, qDiv_eq, qSum_zero l h, zero_div]

theorem maxQLin_zero (l : List ℚ) (h : ∀ x ∈ l, x = 0) : maxQLin l = 0 := by
  induction l using maxQLin.induct with
  | case1 => rfl
  | case2 x => exact h x (by simp)
  | case3 x y rest ih =>
    rw [maxQLin_cons _ _ (by simp), h x (by simp),
      ih (fun z hz => h z (by simp [hz]))]
    simp

theorem peakAmp_zero (w : List ℚ) (h : ∀ x ∈ w, x = 0) : peakAmp w = 0 := by
  rw [peakAmp, maxQ_eq_lin]
  apply maxQLin_zero
  intro y hy
  rcases List.mem_map.mp hy with ⟨x, hx, rfl⟩
  rw [h x hx, qAbs_eq]
  simp

theorem dcRemove_zero (w : List ℚ) (h : ∀ x ∈ w, x = 0) :
    ∀ y ∈ dcRemove w, y = 0 := by
  intro y hy
  simp only [dcRemove] at hy
  rcases List.mem_map.mp hy with ⟨x, hx, rfl⟩
  rw [qSub_eq, h x hx, meanQ_zero w h, sub_zero]

/-! ## Claim theorems -/

/-- Claim C3: on a waveform whose samples are all zero the engine does not
fail but returns the valid baseline report: null cadence and pitch
statistics, zero counts, the baseline tone label, the unavailable
speech-rate marker and the neutral narrative. -/
theorem analyze_silent_input (w : List ℚ) (sr : ℕ) (hsr : 4000 ≤ sr)
    (hw : ∀ x ∈ w, x = (0 : ℚ)) :
    analyze defaultConfig w sr =
      .ok { cadence := none, pitch_mean := none, pitch_std := none,
            cough_count := 0, sneeze_count := 0, tone_quality := "Normal",
            speech_rate := "N/A",
            health_insights := "Voice metrics are within typical ranges." } := by
  have hpk : peakAmp (dcRemove w) = 0 := peakAmp_zero _ (dcRemove_zero w hw)
  rw [analyze, if_neg (by omega), if_pos ((qIsZero_iff _).mpr hpk)]
  rfl

/-- Witness for C3. -/
theorem analyze_silent_input_witness :
    analyze defaultConfig [0, 0, 0, 0] 4000 =
      .ok { cadence := none, pitch_mean := none, pitch_std := none,
            cough_count := 0, sneeze_count := 0, tone_quality := "Normal",
            speech_rate := "N/A",
            health_insights := "Voice metrics are within typical ranges." } :=
  analyze_silent_input [0, 0, 0, 0] 4000 (by decide) (by decide)

/-- Claim C6: whenever the engine returns a report for an input in which
no frame is classified voiced, the pitch statistics are unavailable (none,
not zero and not a default number), and the rendering shows that
unavailability explicitly as N/A. -/
theorem no_voiced_pitch_unavailable (cfg : EngineConfig) (w : List ℚ)
    (sr : ℕ) (r : AnalysisResult) (h : analyze cfg w sr = .ok r)
    (hv : ∀ b ∈ voicedFlagsOf cfg w sr, b = false) :
    r.pitch_mean = none ∧ r.pitch_std = none ∧
    renderPitchMean none = "N/A" ∧ renderPitchStd none = "N/A" := by
  have hfr : voicedFramesOf cfg w sr = [] := by
    rw [voicedFramesOf, List.filter_eq_nil_iff]
    intro f hf
    have hb := hv (voicedP (voicedThresholdOf cfg w sr) f) (by
      rw [voicedFlagsOf]
      exact List.mem_map_of_mem _ hf)
    simp [hb]
  have hf0 : f0sOf cfg w sr = [] := by
    rw [f0sOf, hfr]
    rfl
  rw [analyze] at h
  by_cases h1 : sr < 4000
  · rw [if_pos h1] at h
    cases h
  · rw [if_neg h1] at h
    by_cases h2 : qIsZero (peakAmp (dcRemove w)) = true
    · rw [if_pos h2] at h
      cases h
      exact ⟨rfl, rfl, rfl, rfl⟩
    · rw [if_neg h2] at h
      cases h
      refine ⟨?_, ?_, rfl, rfl⟩
      · show pitchMeanOf cfg w sr = none
        simp only [pitchMeanOf, hf0]
      · show pitchStdOf cfg w sr = none
        simp only [pitchStdOf, hf0]

set_option maxRecDepth 1000000 in
/-- Witness for C6: the 220-sample broadband burst clip is non-silent, has
no voiced frames, and its report carries none for both pitch fields. -/
theorem no_voiced_pitch_unavailable_witness :
    ({ cadence := none, pitch_mean := none, pitch_std := none,
       cough_count := 0, sneeze_count := 1, tone_quality := "Normal",
       speech_rate := "N/A",
       health_insights := "Voice metrics are within typical ranges." } :
        AnalysisResult).pitch_mean = none ∧
    ({ cadence := none, pitch_mean := none, pitch_std := none,
       cough_count := 0, sneeze_count := 1, tone_quality := "Normal",
       speech_rate := "N/A",
       health_insights := "Voice metrics are within typical ranges." } :
        AnalysisResult).pitch_std = none ∧
    renderPitchMean none = "N/A" ∧ renderPitchStd none = "N/A" :=
  no_voiced_pitch_unavailable defaultConfig clipB 4000
    { cadence := none, pitch_mean := none, pitch_std := none,
      cough_count := 0, sneeze_count := 1, tone_quality := "Normal",
      speech_rate := "N/A",
      health_insights := "Voice metrics are within typical ranges." }
    (by decide) (by decide)

/-- Claim C1: the engine's output serializes to a record with exactly the
eight fields cadence, pitch_mean, pitch_std, cough_count, sneeze_count,
tone_quality, speech_rate, health_insights (in the section 6 order, with no
duplicates), and these are exactly the field names the rendering JSX of
VoiceBiomarkerApp reads from an analysis result. -/
theorem engine_fields_exactly_ui_fields (r : AnalysisResult) :
    (r.toJson.map Prod.fst) = engineOutputFields ∧
    engineOutputFields.length = 8 ∧ engineOutputFields.Nodup ∧
    engineOutputFields.Perm uiFieldsRead :=
  ⟨rfl, rfl, by decide, by decide⟩

/-- Claim C2: the rendering distinguishes null from 0.  A null cadence,
pitch_mean or pitch_std renders as the string N/A, while the numeric value
0 renders as a number string (never N/A); a cough_count or sneeze_count of
0 renders as the number 0, not as an unavailable marker. -/
theorem render_distinguishes_null_from_zero :
    renderCadence none = "N/A" ∧ renderPitchMean none = "N/A" ∧
    renderPitchStd none = "N/A" ∧
    renderCadence (some 0) = "0.0" ∧ renderPitchMean (some 0) = "0" ∧
    renderPitchStd (some 0) = "0.0" ∧
    ("0.0" : String) ≠ "N/A" ∧ ("0" : String) ≠ "N/A" ∧
    renderCount (some 0) = 0 ∧ renderCountText (some 0) = "0" := by
  decide

/-- Claim C4: the analysis is deterministic; with a fixed configuration,
running the engine twice on the same waveform and sample rate produces
identical reports, and in particular identical detected event counts. -/
theorem analyze_deterministic (cfg : EngineConfig) (w1 w2 : List ℚ)
    (sr : ℕ) (h : w1 = w2) :
    analyze cfg w1 sr = analyze cfg w2 sr ∧
    (eventsOf cfg w1 sr).length = (eventsOf cfg w2 sr).length := by
  subst h
  exact ⟨rfl, rfl⟩

/-- Witness for C4. -/
theorem analyze_deterministic_witness :
    analyze defaultConfig [mkRat 1 1] 4000 =
      analyze defaultConfig [mkRat 1 1] 4000 ∧
    (eventsOf defaultConfig [mkRat 1 1] 4000).length =
      (eventsOf defaultConfig [mkRat 1 1] 4000).length :=
  analyze_deterministic defaultConfig [mkRat 1 1] [mkRat 1 1] 4000 rfl

/-- Claim C5: with a non-null audioBlob, analyzeAudio posts the blob as
multipart form data under field name audio to /api/analyze-voice, and on a
successful response stores the parsed JSON body as the analysis state. -/
theorem analyzeAudio_posts_and_stores (s : UIState) (b : AudioFile)
    (doc : JsonDoc) (outcome : FetchOutcome) (hb : s.audioBlob = some b) :
    (analyzeAudio s outcome).2 =
      some { url := "/api/analyze-voice", method := "POST",
             formFieldName := "audio", fileName := "recording.wav",
             payload := b } ∧
    (outcome = .response true (.ok doc) →
      ((analyzeAudio s outcome).1.analysis = some doc ∧
       (analyzeAudio s outcome).1.loading = false ∧
       (analyzeAudio s outcome).1.error = none)) := by
  rcases outcome with msg | ⟨ok, body⟩
  · simp [analyzeAudio, hb]
  · rcases body with d | msg
    · cases ok
      · simp [analyzeAudio, hb]
      · simp [analyzeAudio, hb]
    · cases ok
      · simp [analyzeAudio, hb]
      · simp [analyzeAudio, hb]

/-- Witness for C5. -/
theorem analyzeAudio_posts_and_stores_witness :
    (analyzeAudio
        { isRecording := false,
          audioBlob := some { mime := "audio/wav", payload := [1, 2] },
          analysis := none, loading := false, error := none }
        (.response true (.ok { raw := "report" }))).2 =
      some { url := "/api/analyze-voice", method := "POST",
             formFieldName := "audio", fileName := "recording.wav",
             payload := { mime := "audio/wav", payload := [1, 2] } } ∧
    ((analyzeAudio
        { isRecording := false,
          audioBlob := some { mime := "audio/wav", payload := [1, 2] },
          analysis := none, loading := false, error := none }
        (.response true (.ok { raw := "report" }))).1.analysis =
      some { raw := "report" } ∧
     (analyzeAudio
        { isRecording := false,
          audioBlob := some { mime := "audio/wav", payload := [1, 2] },
          analysis := none, loading := false, error := none }
        (.response true (.ok { raw := "report" }))).1.loading = false ∧
     (analyzeAudio
        { isRecording := false,
          audioBlob := some { mime := "audio/wav", payload := [1, 2] },
          analysis := none, loading := false, error := none }
        (.response true (.ok { raw := "report" }))).1.error = none) := by
  have h := analyzeAudio_posts_and_stores
    { isRecording := false,
      audioBlob := some { mime := "audio/wav", payload := [1, 2] },
      analysis := none, loading := false, error := none }
    { mime := "audio/wav", payload := [1, 2] } { raw := "report" }
    (.response true (.ok { raw := "report" })) rfl
  exact ⟨h.1, h.2 rfl⟩

/-- Claim C9: with a non-null audioBlob, if the fetch rejects or the
response is not ok then the error state is set to a message and the
analysis state keeps its previous value, and on every path loading is
false when analyzeAudio completes. -/
theorem analyzeAudio_failure_keeps_analysis (s : UIState) (b : AudioFile)
    (outcome : FetchOutcome) (hb : s.audioBlob = some b) :
    (fetchFailed outcome = true →
      ((analyzeAudio s outcome).1.error.isSome = true ∧
       (analyzeAudio s outcome).1.analysis = s.analysis)) ∧
    (analyzeAudio s outcome).1.loading = false := by
  rcases outcome with msg | ⟨ok, body⟩
  · simp [analyzeAudio, hb, fetchFailed]
  · rcases body with d | msg
    · cases ok
      · simp [analyzeAudio, hb, fetchFailed]
      · simp [analyzeAudio, hb, fetchFailed]
    · cases ok
      · simp [analyzeAudio, hb, fetchFailed]
      · simp [analyzeAudio, hb, fetchFailed]

/-- Witness for C9: a not-ok response leaves the previously stored report
in place, sets an error and ends with loading false. -/
theorem analyzeAudio_failure_keeps_analysis_witness :
    (fetchFailed (.response false (.ok { raw := "ignored" })) = true →
      ((analyzeAudio
          { isRecording := false,
            audioBlob := some { mime := "audio/wav", payload := [3] },
            analysis := some { raw := "previous" }, loading := false,
            error := none }
          (.response false (.ok { raw := "ignored" }))).1.error.isSome =
        true ∧
       (analyzeAudio
          { isRecording := false,
            audioBlob := some { mime := "audio/wav", payload := [3] },
            analysis := some { raw := "previous" }, loading := false,
            error := none }
          (.response false (.ok { raw := "ignored" }))).1.analysis =
        ({ isRecording := false,
           audioBlob := some { mime := "audio/wav", payload := [3] },
           analysis := some { raw := "previous" }, loading := false,
           error := none } : UIState).analysis)) ∧
    (analyzeAudio
        { isRecording := false,
          audioBlob := some { mime := "audio/wav", payload := [3] },
          analysis := some { raw := "previous" }, loading := false,
          error := none }
        (.response false (.ok { raw := "ignored" }))).1.loading = false :=
  analyzeAudio_failure_keeps_analysis _ { mime := "audio/wav", payload := [3] }
    _ rfl

/-- Claim C10: handleFileUpload accepts a selected file exactly when its
MIME type starts with audio/ (any audio type): on acceptance it stores the
file as audioBlob and clears the error, otherwise it sets the fixed error
message and leaves audioBlob unchanged. -/
theorem upload_accepts_audio_mime (s : UIState) (f : AudioFile) :
    (strStartsWith f.mime "audio/" = true →
      handleFileUpload s (some f) =
        { s with audioBlob := some f, error := none }) ∧
    (strStartsWith f.mime "audio/" = false →
      handleFileUpload s (some f) =
        { s with error := some "Please select a valid audio file" }) := by
  constructor
  · intro h
    simp [handleFileUpload, h]
  · intro h
    simp [handleFileUpload, h]

/-- Witness for C10: an audio/ogg file (not one of the MP3/WAV/M4A trio)
is accepted and clears a stale error; a video/mp4 file is rejected with the
fixed message and audioBlob stays unchanged. -/
theorem upload_accepts_audio_mime_witness :
    handleFileUpload
        { isRecording := false, audioBlob := none, analysis := none,
          loading := false, error := some "old" }
        (some { mime := "audio/ogg", payload := [7] }) =
      { isRecording := false,
        audioBlob := some { mime := "audio/ogg", payload := [7] },
        analysis := none, loading := false, error := none } ∧
    handleFileUpload
        { isRecording := false, audioBlob := none, analysis := none,
          loading := false, error := none }
        (some { mime := "video/mp4", payload := [7] }) =
      { isRecording := false, audioBlob := none, analysis := none,
        loading := false,
        error := some "Please select a valid audio file" } :=
  ⟨(upload_accepts_audio_mime _ _).1 (by decide),
   (upload_accepts_audio_mime _ _).2 (by decide)⟩

/-- Claim C8 counterexample: the UI component shown in the repository is
294 lines, not 613. -/
theorem ui_component_not_613_lines :
    uiComponentLineCount = 294 ∧ uiComponentLineCount ≠ 613 := by
  decide

/-- Claim C8 amended: the two visible repository files total 613 lines,
of which the UI component itself is 294 and the README 319; the engine's
own size cannot be measured because its code is not in the repository. -/
theorem visible_files_total_613_lines :
    uiComponentLineCount = 294 ∧ readmeLineCount = 319 ∧
    uiComponentLineCount + readmeLineCount = 613 := by
  decide

/-! ## Concatenation lemmas for claim C7 -/

theorem meanQ_append_self (w : List ℚ) : meanQ (w ++ w) = meanQ w := by
  rcases eq_or_ne w [] with rfl | hw
  · rfl
  · have hl : ((w.length : ℚ)) ≠ 0 := by
      simpa using List.length_eq_zero.not.mpr hw
    rw [meanQ, meanQ, qDiv_eq, qDiv_eq, qSum_eq, qSum_eq, qOfNat_eq, qOfNat_eq,
      List.sum_append, List.length_append]
    push_cast
    field_simp
    ring

theorem dcRemove_append_self (w : List ℚ) :
    dcRemove (w ++ w) = dcRemove w ++ dcRemove w := by
  simp only [dcRemove, meanQ_append_self, List.map_append]

theorem maxQLin_append (l1 l2 : List ℚ) (h1 : l1 ≠ []) (h2 : l2 ≠ []) :
    maxQLin (l1 ++ l2) = max (maxQLin l1) (maxQLin l2) := by
  induction l1 with
  | nil => exact absurd rfl h1
  | cons x xs ih =>
    cases xs with
    | nil =>
      rw [List.cons_append, List.nil_append, maxQLin_cons x l2 h2]
      rfl
    | cons y ys =>
      rw [List.cons_append, maxQLin_cons x _ (by simp), ih (by simp),
        maxQLin_cons x (y :: ys) (by simp), max_assoc]

theorem minQLin_append (l1 l2 : List ℚ) (h1 : l1 ≠ []) (h2 : l2 ≠ []) :
    minQLin (l1 ++ l2) = min (minQLin l1) (minQLin l2) := by
  induction l1 with
  | nil => exact absurd rfl h1
  | cons x xs ih =>
    cases xs with
    | nil =>
      rw [List.cons_append, List.nil_append, minQLin_cons x l2 h2]
      rfl
    | cons y ys =>
      rw [List.cons_append, minQLin_cons x _ (by simp), ih (by simp),
        minQLin_cons x (y :: ys) (by simp), min_assoc]

theorem peakAmp_append_self (u : List ℚ) : peakAmp (u ++ u) = peakAmp u := by
  rcases eq_or_ne u [] with rfl | hu
  · rfl
  · rw [peakAmp, peakAmp, List.map_append,
      maxQ_eq_lin, maxQ_eq_lin,
      maxQLin_append _ _ (by simpa using hu) (by simpa using hu), max_self]

theorem normalizedOf_append_self (cfg : EngineConfig) (w : List ℚ) :
    normalizedOf cfg (w ++ w) = normalizedOf cfg w ++ normalizedOf cfg w := by
  simp only [normalizedOf, dcRemove_append_self, peakAmp_append_self,
    List.map_append]

theorem normalizedOf_length (cfg : EngineConfig) (w : List ℚ) :
    (normalizedOf cfg w).length = w.length := by
  simp [normalizedOf, dcRemove]

theorem frameStarts_tiled (h m : ℕ) (hpos : 0 < h) (hm : 1 ≤ m) :
    frameStarts h h (h * m) = (List.range m).map (fun k => k * h) := by
  rw [frameStarts, if_neg (by
    push_neg
    exact Nat.le_mul_of_pos_right h (by omega))]
  have hsub : h * m - h = (m - 1) * h := by
    rw [Nat.sub_one_mul, Nat.mul_comm]
  rw [hsub, Nat.mul_div_cancel _ hpos]
  have hm1 : m - 1 + 1 = m := by omega
  rw [hm1]



theorem framesOf_append_self (cfg : EngineConfig) (w : List ℚ) (sr : ℕ)
    (htile : hopSamples cfg sr = windowSamples cfg sr)
    (hwpos : 0 < windowSamples cfg sr)
    (hdiv : windowSamples cfg sr ∣ w.length)
    (hlen : windowSamples cfg sr ≤ w.length) :
    framesOf cfg (w ++ w) sr =
      framesOf cfg w sr ++ (framesOf cfg w sr).map (shiftFrame w.length) := by
  obtain ⟨m, hm⟩ := hdiv
  set h := windowSamples cfg sr with hhdef
  have hm1 : 1 ≤ m := by
    rcases Nat.eq_zero_or_pos m with rfl | hp
    · rw [Nat.mul_zero] at hm
      omega
    · exact hp
  have hlen2 : (w ++ w).length = h * (2 * m) := by
    rw [List.length_append, hm]
    ring
  have hveq := normalizedOf_append_self cfg w
  have hvlen : (normalizedOf cfg w).length = w.length := normalizedOf_length cfg w
  rw [framesOf, framesOf, htile, hlen2, hm]
  rw [frameStarts_tiled h m hwpos hm1, frameStarts_tiled h (2 * m) hwpos (by omega)]
  rw [two_mul, List.range_add]
  simp only [List.map_append, List.map_map]
  congr 1
  · apply List.map_congr_left
    intro k hk
    have hkm : k < m := List.mem_range.mp hk
    have hkh : k * h + h ≤ h * m := by
      have h1 : (k + 1) * h ≤ m * h := Nat.mul_le_mul_right h (by omega)
      calc k * h + h = (k + 1) * h := by ring
        _ ≤ m * h := h1
        _ = h * m := by ring
    simp only [Function.comp, frameAt, Frame.mk.injEq]
    refine ⟨trivial, ?_⟩
    rw [hveq]
    rw [List.drop_append_of_le_length (by rw [hvlen, hm]; omega)]
    rw [List.take_append_of_le_length (by rw [List.length_drop, hvlen, hm]; omega)]
  · apply List.map_congr_left
    intro k hk
    have hkm : k < m := List.mem_range.mp hk
    simp only [Function.comp, frameAt, shiftFrame, Frame.mk.injEq]
    constructor
    · ring
    · rw [hveq]
      rw [show (m + k) * h = (normalizedOf cfg w).length + k * h by
        rw [hvlen, hm]; ring]
      rw [List.drop_append]



theorem frameStarts_ne_nil (window hop n : ℕ) :
    frameStarts window hop n ≠ [] := by
  rw [frameStarts]
  split
  · simp
  · simp

theorem framesOf_ne_nil (cfg : EngineConfig) (w : List ℚ) (sr : ℕ) :
    framesOf cfg w sr ≠ [] := by
  rw [framesOf]
  simp [frameStarts_ne_nil]

theorem energiesOf_append_self (cfg : EngineConfig) (w : List ℚ) (sr : ℕ)
    (htile : hopSamples cfg sr = windowSamples cfg sr)
    (hwpos : 0 < windowSamples cfg sr)
    (hdiv : windowSamples cfg sr ∣ w.length)
    (hlen : windowSamples cfg sr ≤ w.length) :
    energiesOf cfg (w ++ w) sr = energiesOf cfg w sr ++ energiesOf cfg w sr := by
  rw [energiesOf, energiesOf,
    framesOf_append_self cfg w sr htile hwpos hdiv hlen]
  simp only [List.map_append, List.map_map]
  congr 1

theorem maxEnergyOf_append_self (cfg : EngineConfig) (w : List ℚ) (sr : ℕ)
    (htile : hopSamples cfg sr = windowSamples cfg sr)
    (hwpos : 0 < windowSamples cfg sr)
    (hdiv : windowSamples cfg sr ∣ w.length)
    (hlen : windowSamples cfg sr ≤ w.length) :
    maxEnergyOf cfg (w ++ w) sr = maxEnergyOf cfg w sr := by
  have hne : energiesOf cfg w sr ≠ [] := by
    rw [energiesOf]
    simpa using framesOf_ne_nil cfg w sr
  rw [maxEnergyOf, maxEnergyOf,
    energiesOf_append_self cfg w sr htile hwpos hdiv hlen,
    maxQ_eq_lin, maxQ_eq_lin, maxQLin_append _ _ hne hne, max_self]

theorem noiseFloorOf_append_self (cfg : EngineConfig) (w : List ℚ) (sr : ℕ)
    (htile : hopSamples cfg sr = windowSamples cfg sr)
    (hwpos : 0 < windowSamples cfg sr)
    (hdiv : windowSamples cfg sr ∣ w.length)
    (hlen : windowSamples cfg sr ≤ w.length) :
    noiseFloorOf cfg (w ++ w) sr = noiseFloorOf cfg w sr := by
  have hne : energiesOf cfg w sr ≠ [] := by
    rw [energiesOf]
    simpa using framesOf_ne_nil cfg w sr
  rw [noiseFloorOf, noiseFloorOf,
    energiesOf_append_self cfg w sr htile hwpos hdiv hlen,
    minQ_eq_lin, minQ_eq_lin, minQLin_append _ _ hne hne, min_self]

theorem voicedThresholdOf_append_self (cfg : EngineConfig) (w : List ℚ)
    (sr : ℕ)
    (htile : hopSamples cfg sr = windowSamples cfg sr)
    (hwpos : 0 < windowSamples cfg sr)
    (hdiv : windowSamples cfg sr ∣ w.length)
    (hlen : windowSamples cfg sr ≤ w.length) :
    voicedThresholdOf cfg (w ++ w) sr = voicedThresholdOf cfg w sr := by
  rw [voicedThresholdOf, voicedThresholdOf,
    noiseFloorOf_append_self cfg w sr htile hwpos hdiv hlen]

theorem voicedFlagsOf_append_self (cfg : EngineConfig) (w : List ℚ) (sr : ℕ)
    (htile : hopSamples cfg sr = windowSamples cfg sr)
    (hwpos : 0 < windowSamples cfg sr)
    (hdiv : windowSamples cfg sr ∣ w.length)
    (hlen : windowSamples cfg sr ≤ w.length) :
    voicedFlagsOf cfg (w ++ w) sr =
      voicedFlagsOf cfg w sr ++ voicedFlagsOf cfg w sr := by
  rw [voicedFlagsOf, voicedFlagsOf,
    framesOf_append_self cfg w sr htile hwpos hdiv hlen,
    voicedThresholdOf_append_self cfg w sr htile hwpos hdiv hlen]
  simp only [List.map_append, List.map_map]
  congr 1



theorem groupRuns_cons_pos (p : Frame → Bool) :
    (f : Frame) → (rest : List Frame) → p f = true →
    ∃ tl gs, groupRuns p (f :: rest) = (f :: tl) :: gs
  | f, [], hf => ⟨[], [], by simp [groupRuns, hf]⟩
  | f, f2 :: rest, hf => by
    by_cases h2 : p f2
    · obtain ⟨tl, gs, hg⟩ := groupRuns_cons_pos p f2 rest h2
      exact ⟨f2 :: tl, gs, by simp [groupRuns, hf, h2, hg]⟩
    · exact ⟨[], groupRuns p (f2 :: rest), by simp [groupRuns, hf, h2]⟩

theorem groupRuns_mem_ne_nil (p : Frame → Bool) :
    (l : List Frame) → ∀ g ∈ groupRuns p l, g ≠ []
  | [] => by simp [groupRuns]
  | [f] => by
    by_cases h : p f <;> simp [groupRuns, h]
  | f1 :: f2 :: rest => by
    intro g hg
    have ih := groupRuns_mem_ne_nil p (f2 :: rest)
    by_cases h1 : p f1
    · by_cases h2 : p f2
      · rcases hh : groupRuns p (f2 :: rest) with _ | ⟨g0, gs⟩
        · simp [groupRuns, h1, h2, hh] at hg
          simp [hg]
        · simp only [groupRuns, h1, h2, if_pos, hh] at hg
          simp only [List.mem_cons] at hg
          rcases hg with rfl | hgs
          · simp
          · exact ih _ (by rw [hh]; exact List.mem_cons_of_mem _ hgs)
      · simp only [groupRuns, h1, h2, if_pos, if_neg, Bool.not_eq_true,
          List.mem_cons] at hg
        rcases hg with rfl | hgs
        · simp
        · exact ih _ hgs
    · simp only [groupRuns, h1, if_neg, Bool.not_eq_true] at hg
      exact ih _ hg

theorem groupRuns_nil_of_all_false (p : Frame → Bool) :
    (l : List Frame) → (∀ x ∈ l, p x = false) → groupRuns p l = []
  | [], _ => rfl
  | [f], h => by simp [groupRuns, h f (by simp)]
  | f1 :: f2 :: rest, h => by
    have h1 := h f1 (by simp)
    simp only [groupRuns, h1, Bool.false_eq_true, if_false]
    exact groupRuns_nil_of_all_false p (f2 :: rest)
      (fun x hx => h x (by simp [List.mem_cons] at hx ⊢; tauto))

theorem groupRuns_cc_tt (p : Frame → Bool) (f1 f2 : Frame) (t : List Frame)
    (tl : List Frame) (gs : List (List Frame)) (h1 : p f1 = true)
    (h2 : p f2 = true) (hg : groupRuns p (f2 :: t) = (f2 :: tl) :: gs) :
    groupRuns p (f1 :: f2 :: t) = (f1 :: f2 :: tl) :: gs := by
  simp [groupRuns, h1, h2, hg]

theorem groupRuns_cc_tf (p : Frame → Bool) (f1 f2 : Frame) (t : List Frame)
    (h1 : p f1 = true) (h2 : p f2 = false) :
    groupRuns p (f1 :: f2 :: t) = [f1] :: groupRuns p (f2 :: t) := by
  simp [groupRuns, h1, h2]

theorem groupRuns_cc_f (p : Frame → Bool) (f1 f2 : Frame) (t : List Frame)
    (h1 : p f1 = false) :
    groupRuns p (f1 :: f2 :: t) = groupRuns p (f2 :: t) := by
  simp [groupRuns, h1]

theorem groupRuns_append (p : Frame → Bool) :
    (xs ys : List Frame) →
    (∀ f ∈ xs.getLast?, p f = false) →
    groupRuns p (xs ++ ys) = groupRuns p xs ++ groupRuns p ys
  | [], ys, _ => by simp [groupRuns]
  | [f], ys, hl => by
    have hf : p f = false := hl f rfl
    cases ys with
    | nil => simp [groupRuns, hf]
    | cons y ys2 =>
      simp [groupRuns, hf]
  | f1 :: f2 :: rest, ys, hl => by
    have hl2 : ∀ f ∈ (f2 :: rest).getLast?, p f = false := by
      intro f hf
      exact hl f (by rwa [List.getLast?_cons_cons])
    have ih := groupRuns_append p (f2 :: rest) ys hl2
    have hca : (f1 :: f2 :: rest) ++ ys = f1 :: f2 :: (rest ++ ys) := rfl
    have hcb : (f2 :: rest) ++ ys = f2 :: (rest ++ ys) := rfl
    rw [hcb] at ih
    rw [hca]
    by_cases h1 : p f1
    · by_cases h2 : p f2
      · obtain ⟨tl, gs, hg⟩ := groupRuns_cons_pos p f2 rest h2
        have hgg : groupRuns p (f2 :: (rest ++ ys)) =
            (f2 :: tl) :: (gs ++ groupRuns p ys) := by
          rw [ih, hg]
          rfl
        rw [groupRuns_cc_tt p f1 f2 (rest ++ ys) tl (gs ++ groupRuns p ys)
            h1 h2 hgg,
          groupRuns_cc_tt p f1 f2 rest tl gs h1 h2 hg]
        rfl
      · rw [groupRuns_cc_tf p f1 f2 (rest ++ ys) h1 (by simpa using h2),
          groupRuns_cc_tf p f1 f2 rest h1 (by simpa using h2), ih]
        rfl
    · rw [groupRuns_cc_f p f1 f2 (rest ++ ys) (by simpa using h1),
        groupRuns_cc_f p f1 f2 rest (by simpa using h1), ih]



theorem groupRuns_map (p : Frame → Bool) (gf : Frame → Frame) :
    (l : List Frame) →
    groupRuns p (l.map gf) =
      (groupRuns (fun x => p (gf x)) l).map (List.map gf)
  | [] => rfl
  | [f] => by
    by_cases h : p (gf f) <;> simp [groupRuns, h]
  | f1 :: f2 :: rest => by
    have ih := groupRuns_map p gf (f2 :: rest)
    by_cases h1 : p (gf f1)
    · by_cases h2 : p (gf f2)
      · obtain ⟨tl, gs, hg⟩ :=
          groupRuns_cons_pos (fun x => p (gf x)) f2 rest h2
        have hg2 : groupRuns p (gf f2 :: rest.map gf) =
            (gf f2 :: tl.map gf) :: gs.map (List.map gf) := by
          have : (f2 :: rest).map gf = gf f2 :: rest.map gf := rfl
          rw [← this, ih, hg]
          rfl
        have hmap : (f1 :: f2 :: rest).map gf =
            gf f1 :: gf f2 :: rest.map gf := rfl
        rw [hmap,
          groupRuns_cc_tt p (gf f1) (gf f2) (rest.map gf) (tl.map gf)
            (gs.map (List.map gf)) h1 h2 hg2,
          groupRuns_cc_tt (fun x => p (gf x)) f1 f2 rest tl gs h1 h2 hg]
        rfl
      · have hmap : (f1 :: f2 :: rest).map gf =
            gf f1 :: gf f2 :: rest.map gf := rfl
        rw [hmap,
          groupRuns_cc_tf p (gf f1) (gf f2) (rest.map gf) h1
            (by simpa using h2),
          groupRuns_cc_tf (fun x => p (gf x)) f1 f2 rest h1
            (by simpa using h2)]
        have : (f2 :: rest).map gf = gf f2 :: rest.map gf := rfl
        rw [← this, ih]
        rfl
    · have hmap : (f1 :: f2 :: rest).map gf =
          gf f1 :: gf f2 :: rest.map gf := rfl
      rw [hmap,
        groupRuns_cc_f p (gf f1) (gf f2) (rest.map gf) (by simpa using h1),
        groupRuns_cc_f (fun x => p (gf x)) f1 f2 rest (by simpa using h1)]
      have : (f2 :: rest).map gf = gf f2 :: rest.map gf := rfl
      rw [← this, ih]

theorem mkEvent_shift (d : ℕ) (g : List Frame) (hg : g ≠ []) :
    mkEvent (g.map (shiftFrame d)) = shiftEvent d (mkEvent g) := by
  obtain ⟨h0, hh0⟩ : ∃ h0, g.head? = some h0 := by
    cases hh : g.head? with
    | none => exact absurd (List.head?_eq_none_iff.mp hh) hg
    | some x => exact ⟨x, rfl⟩
  obtain ⟨l0, hl0⟩ : ∃ l0, g.getLast? = some l0 := by
    cases hh : g.getLast? with
    | none => exact absurd (List.getLast?_eq_none_iff.mp hh) hg
    | some x => exact ⟨x, rfl⟩
  rw [mkEvent, mkEvent, shiftEvent]
  simp only [List.head?_map, List.getLast?_map, List.map_map, hh0, hl0,
    Option.map_some, Option.getD_some, Event.mk.injEq]
  refine ⟨rfl, ?_, ?_⟩
  · simp [frameEnd, shiftFrame]
    omega
  · rfl

theorem eventSpan_shift (d : ℕ) (e : Event) :
    eventSpan (shiftEvent d e) = eventSpan e := by
  simp only [eventSpan, shiftEvent]
  omega

theorem eventKeep_shift (cfg : EngineConfig) (sr d : ℕ) (e : Event) :
    eventKeep cfg sr (shiftEvent d e) = eventKeep cfg sr e := by
  simp only [eventKeep, eventSpan_shift]

theorem classifySneeze_shift (cfg : EngineConfig) (sr d : ℕ) (e : Event) :
    classifySneeze cfg sr (shiftEvent d e) = classifySneeze cfg sr e := by
  simp only [classifySneeze, eventSpan_shift]
  rfl



theorem eventsOf_append_self (cfg : EngineConfig) (w : List ℚ) (sr : ℕ)
    (htile : hopSamples cfg sr = windowSamples cfg sr)
    (hwpos : 0 < windowSamples cfg sr)
    (hdiv : windowSamples cfg sr ∣ w.length)
    (hlen : windowSamples cfg sr ≤ w.length)
    (hlast : ∀ f ∈ (framesOf cfg w sr).getLast?,
      burstP cfg (maxEnergyOf cfg w sr) f = false) :
    eventsOf cfg (w ++ w) sr =
      eventsOf cfg w sr ++ (eventsOf cfg w sr).map (shiftEvent w.length) := by
  have hfun : (fun f => burstP cfg (maxEnergyOf cfg w sr)
      (shiftFrame w.length f)) = burstP cfg (maxEnergyOf cfg w sr) :=
    funext fun f => rfl
  rw [eventsOf, eventsOf,
    maxEnergyOf_append_self cfg w sr htile hwpos hdiv hlen,
    framesOf_append_self cfg w sr htile hwpos hdiv hlen,
    groupRuns_append _ _ _ hlast,
    groupRuns_map _ (shiftFrame w.length), hfun]
  rw [List.map_append, List.filter_append]
  congr 1
  rw [List.map_map]
  rw [List.map_congr_left (f :=
      mkEvent ∘ List.map (shiftFrame w.length))
    (g := shiftEvent w.length ∘ mkEvent)
    (fun g hg => by
      show mkEvent (g.map (shiftFrame w.length)) = shiftEvent w.length (mkEvent g)
      exact mkEvent_shift w.length g
        (groupRuns_mem_ne_nil _ _ g hg))]
  rw [← List.map_map, List.filter_map]
  have hkf : (eventKeep cfg sr ∘ shiftEvent w.length) = eventKeep cfg sr :=
    funext fun e => eventKeep_shift cfg sr w.length e
  rw [hkf]

theorem coughCountOf_append_self (cfg : EngineConfig) (w : List ℚ) (sr : ℕ)
    (htile : hopSamples cfg sr = windowSamples cfg sr)
    (hwpos : 0 < windowSamples cfg sr)
    (hdiv : windowSamples cfg sr ∣ w.length)
    (hlen : windowSamples cfg sr ≤ w.length)
    (hlast : ∀ f ∈ (framesOf cfg w sr).getLast?,
      burstP cfg (maxEnergyOf cfg w sr) f = false) :
    coughCountOf cfg (w ++ w) sr = 2 * coughCountOf cfg w sr := by
  rw [coughCountOf, coughCountOf,
    eventsOf_append_self cfg w sr htile hwpos hdiv hlen hlast,
    List.filter_append, List.length_append, List.filter_map]
  have hfp : ((fun e => !classifySneeze cfg sr e) ∘ shiftEvent w.length) =
      (fun e => !classifySneeze cfg sr e) := by
    funext e
    simp only [Function.comp_apply, classifySneeze_shift]
  rw [hfp, List.length_map]
  omega

theorem sneezeCountOf_append_self (cfg : EngineConfig) (w : List ℚ) (sr : ℕ)
    (htile : hopSamples cfg sr = windowSamples cfg sr)
    (hwpos : 0 < windowSamples cfg sr)
    (hdiv : windowSamples cfg sr ∣ w.length)
    (hlen : windowSamples cfg sr ≤ w.length)
    (hlast : ∀ f ∈ (framesOf cfg w sr).getLast?,
      burstP cfg (maxEnergyOf cfg w sr) f = false) :
    sneezeCountOf cfg (w ++ w) sr = 2 * sneezeCountOf cfg w sr := by
  rw [sneezeCountOf, sneezeCountOf,
    eventsOf_append_self cfg w sr htile hwpos hdiv hlen hlast,
    List.filter_append, List.length_append, List.filter_map]
  have hfp : ((fun e => classifySneeze cfg sr e) ∘ shiftEvent w.length) =
      (fun e => classifySneeze cfg sr e) := by
    funext e
    simp only [Function.comp_apply, classifySneeze_shift]
  rw [hfp, List.length_map]
  omega

theorem branch_unavailable_of_no_voiced (cfg : EngineConfig) (w : List ℚ)
    (sr : ℕ) (hv : ∀ b ∈ voicedFlagsOf cfg w sr, b = false) :
    pitchMeanOf cfg w sr = none ∧ pitchStdOf cfg w sr = none ∧
    cadenceOf cfg w sr = none := by
  have hfr : voicedFramesOf cfg w sr = [] := by
    rw [voicedFramesOf, List.filter_eq_nil_iff]
    intro f hf
    have hb := hv (voicedP (voicedThresholdOf cfg w sr) f)
      (by rw [voicedFlagsOf]; exact List.mem_map_of_mem _ hf)
    simp [hb]
  have hf0 : f0sOf cfg w sr = [] := by
    rw [f0sOf, hfr]
    rfl
  have hallf : ∀ f ∈ framesOf cfg w sr,
      voicedP (voicedThresholdOf cfg w sr) f = false := by
    intro f hf
    exact hv _ (by rw [voicedFlagsOf]; exact List.mem_map_of_mem _ hf)
  have hseg : segmentsOf cfg w sr = [] := by
    rw [segmentsOf, groupRuns_nil_of_all_false _ _ hallf]
    rfl
  have hst : speakingTimeOf cfg w sr = 0 := by
    rw [speakingTimeOf, hseg]
    have h0 : qSum (([] : List (List Frame)).map
        (fun g => qOfNat (groupSpanSamples g))) = 0 := rfl
    rw [h0, qDiv_eq]
    exact zero_div _
  have hle : qLe (speakingTimeOf cfg w sr) 0 = true := by
    rw [hst]
    exact (qLe_iff 0 0).mpr le_rfl
  refine ⟨by simp only [pitchMeanOf, hf0], by simp only [pitchStdOf, hf0], ?_⟩
  rw [cadenceOf, if_pos hle]

/-- Claim C7 amended: concatenating a clip with itself doubles the
respiratory counts and leaves cadence and pitch statistics unchanged when
no event or speech run can span the junction: frames tile the clip (hop
equal to window, clip length a multiple of the window), the final frame is
not burst-flagged, and no frame is voiced (cadence and pitch are then
unavailable in both runs).  In general the claim fails; see the
counterexample, where the junction merges the bursts. -/
theorem analyze_concat_aligned_doubles (cfg : EngineConfig) (w : List ℚ)
    (sr : ℕ) (r1 r2 : AnalysisResult)
    (hsr : 4000 ≤ sr)
    (htile : hopSamples cfg sr = windowSamples cfg sr)
    (hwpos : 0 < windowSamples cfg sr)
    (hdiv : windowSamples cfg sr ∣ w.length)
    (hlen : windowSamples cfg sr ≤ w.length)
    (hv : ∀ b ∈ voicedFlagsOf cfg w sr, b = false)
    (hlast : ∀ f ∈ (framesOf cfg w sr).getLast?,
      burstP cfg (maxEnergyOf cfg w sr) f = false)
    (h1 : analyze cfg w sr = .ok r1)
    (h2 : analyze cfg (w ++ w) sr = .ok r2) :
    r2.cough_count = 2 * r1.cough_count ∧
    r2.sneeze_count = 2 * r1.sneeze_count ∧
    r2.cadence = r1.cadence ∧
    r2.pitch_mean = r1.pitch_mean ∧
    r2.pitch_std = r1.pitch_std := by
  have hv2 : ∀ b ∈ voicedFlagsOf cfg (w ++ w) sr, b = false := by
    intro b hb
    rw [voicedFlagsOf_append_self cfg w sr htile hwpos hdiv hlen] at hb
    rcases List.mem_append.mp hb with h | h
    · exact hv b h
    · exact hv b h
  have hpk : peakAmp (dcRemove (w ++ w)) = peakAmp (dcRemove w) := by
    rw [dcRemove_append_self, peakAmp_append_self]
  rw [analyze, if_neg (by omega)] at h1
  rw [analyze, if_neg (by omega), hpk] at h2
  by_cases hz : qIsZero (peakAmp (dcRemove w)) = true
  · rw [if_pos hz] at h1 h2
    cases h1
    cases h2
    exact ⟨rfl, rfl, rfl, rfl, rfl⟩
  · rw [if_neg hz] at h1 h2
    cases h1
    cases h2
    obtain ⟨hm1, hs1, hc1⟩ := branch_unavailable_of_no_voiced cfg w sr hv
    obtain ⟨hm2, hs2, hc2⟩ := branch_unavailable_of_no_voiced cfg (w ++ w) sr hv2
    refine ⟨?_, ?_, ?_, ?_, ?_⟩
    · exact coughCountOf_append_self cfg w sr htile hwpos hdiv hlen hlast
    · exact sneezeCountOf_append_self cfg w sr htile hwpos hdiv hlen hlast
    · show cadenceOf cfg (w ++ w) sr = cadenceOf cfg w sr
      rw [hc2, hc1]
    · show pitchMeanOf cfg (w ++ w) sr = pitchMeanOf cfg w sr
      rw [hm2, hm1]
    · show pitchStdOf cfg (w ++ w) sr = pitchStdOf cfg w sr
      rw [hs2, hs1]



set_option maxRecDepth 1000000 in
/-- Claim C7 counterexample: the 220-sample burst clip yields one sneeze
and no cough, but its self-concatenation yields no sneeze and one cough:
the burst at the end of the first copy and the burst at the start of the
second merge into a single longer event, which the duration heuristic then
classifies as a cough, so neither count is doubled. -/
theorem concat_counterexample :
    analyze defaultConfig clipB 4000 =
      .ok { cadence := none, pitch_mean := none, pitch_std := none,
            cough_count := 0, sneeze_count := 1, tone_quality := "Normal",
            speech_rate := "N/A",
            health_insights := "Voice metrics are within typical ranges." } ∧
    analyze defaultConfig (clipB ++ clipB) 4000 =
      .ok { cadence := none, pitch_mean := none, pitch_std := none,
            cough_count := 1, sneeze_count := 0, tone_quality := "Normal",
            speech_rate := "N/A",
            health_insights := "Voice metrics are within typical ranges." } ∧
    ¬(coughCountOf defaultConfig (clipB ++ clipB) 4000 =
        2 * coughCountOf defaultConfig clipB 4000 ∧
      sneezeCountOf defaultConfig (clipB ++ clipB) 4000 =
        2 * sneezeCountOf defaultConfig clipB 4000) := by
  refine ⟨by decide, by decide, ?_⟩
  intro hcontra
  have hs := hcontra.2
  rw [show sneezeCountOf defaultConfig (clipB ++ clipB) 4000 = 0 by decide,
    show sneezeCountOf defaultConfig clipB 4000 = 1 by decide] at hs
  omega

set_option maxRecDepth 1000000 in
/-- Witness for the amended C7: under the tiled configuration the guarded
300-sample clip has one sneeze event, and its self-concatenation has
exactly two, with cadence and pitch statistics unchanged. -/
theorem analyze_concat_aligned_doubles_witness :
    ({ cadence := none, pitch_mean := none, pitch_std := none,
       cough_count := 0, sneeze_count := 2, tone_quality := "Normal",
       speech_rate := "N/A",
       health_insights := "Voice metrics are within typical ranges." } :
        AnalysisResult).cough_count =
      2 * ({ cadence := none, pitch_mean := none, pitch_std := none,
             cough_count := 0, sneeze_count := 1, tone_quality := "Normal",
             speech_rate := "N/A",
             health_insights := "Voice metrics are within typical ranges." } :
        AnalysisResult).cough_count ∧
    ({ cadence := none, pitch_mean := none, pitch_std := none,
       cough_count := 0, sneeze_count := 2, tone_quality := "Normal",
       speech_rate := "N/A",
       health_insights := "Voice metrics are within typical ranges." } :
        AnalysisResult).sneeze_count =
      2 * ({ cadence := none, pitch_mean := none, pitch_std := none,
             cough_count := 0, sneeze_count := 1, tone_quality := "Normal",
             speech_rate := "N/A",
             health_insights := "Voice metrics are within typical ranges." } :
        AnalysisResult).sneeze_count ∧
    ({ cadence := none, pitch_mean := none, pitch_std := none,
       cough_count := 0, sneeze_count := 2, tone_quality := "Normal",
       speech_rate := "N/A",
       health_insights := "Voice metrics are within typical ranges." } :
        AnalysisResult).cadence =
      ({ cadence := none, pitch_mean := none, pitch_std := none,
         cough_count := 0, sneeze_count := 1, tone_quality := "Normal",
         speech_rate := "N/A",
         health_insights := "Voice metrics are within typical ranges." } :
        AnalysisResult).cadence ∧
    ({ cadence := none, pitch_mean := none, pitch_std := none,
       cough_count := 0, sneeze_count := 2, tone_quality := "Normal",
       speech_rate := "N/A",
       health_insights := "Voice metrics are within typical ranges." } :
        AnalysisResult).pitch_mean =
      ({ cadence := none, pitch_mean := none, pitch_std := none,
         cough_count := 0, sneeze_count := 1, tone_quality := "Normal",
         speech_rate := "N/A",
         health_insights := "Voice metrics are within typical ranges." } :
        AnalysisResult).pitch_mean ∧
    ({ cadence := none, pitch_mean := none, pitch_std := none,
       cough_count := 0, sneeze_count := 2, tone_quality := "Normal",
       speech_rate := "N/A",
       health_insights := "Voice metrics are within typical ranges." } :
        AnalysisResult).pitch_std =
      ({ cadence := none, pitch_mean := none, pitch_std := none,
         cough_count := 0, sneeze_count := 1, tone_quality := "Normal",
         speech_rate := "N/A",
         health_insights := "Voice metrics are within typical ranges." } :
        AnalysisResult).pitch_std :=
  analyze_concat_aligned_doubles cfgTiled clipG 4000
    { cadence := none, pitch_mean := none, pitch_std := none,
      cough_count := 0, sneeze_count := 1, tone_quality := "Normal",
      speech_rate := "N/A",
      health_insights := "Voice metrics are within typical ranges." }
    { cadence := none, pitch_mean := none, pitch_std := none,
      cough_count := 0, sneeze_count := 2, tone_quality := "Normal",
      speech_rate := "N/A",
      health_insights := "Voice metrics are within typical ranges." }
    (by decide) (by decide) (by decide) (by decide) (by decide) (by decide)
    (by decide) (by decide) (by decide)

end AudioAge
